import Mathlib

/-!
Verification development for the CHIP-8 front-end's real-time execution
scheduler (the `loop` / `startLoop` / `stopLoop` callback machinery in the
main application component), its keyboard input mask handling
(`updateKeyMask`, `handleKeyDown`, `handleKeyUp`, `keyMap`), and the
in-repo `StubChip8Client`.

JavaScript `number` arithmetic on timestamps and accumulators is modelled
over `ℚ` (exact real-valued arithmetic); `Math.floor` is `Int.floor`.
Bitwise operations on the key mask are modelled on `ℕ` bit patterns with
the 32-bit semantics of JavaScript bitwise operators made explicit
(shift counts are taken mod 32, bitwise NOT is complement in 32 bits).
The emulator client is an opaque capability: the scheduler definitions are
parameterised over an arbitrary client state type and its operations.
-/

/-- Source constant: target CPU speed of the main loop (cycles per second). -/
def CYCLES_PER_SECOND : ℚ := 1300

/-- Source constant: cap on CPU catch-up cycles within one callback. -/
def MAX_CYCLES_PER_FRAME : ℤ := 100

/-- Source constant: timer tick rate in Hz. -/
def TIMER_HZ : ℚ := 60

/-- Source constant: timer interval in milliseconds. -/
def TIMER_INTERVAL_MS : ℚ := 1000 / TIMER_HZ

/-- Source constant: render target frame rate. -/
def TARGET_FPS : ℚ := 60

/-- Source constant: render interval in milliseconds. -/
def FRAME_INTERVAL_MS : ℚ := 1000 / TARGET_FPS

/-- Source local: `cyclesPerMs = CYCLES_PER_SECOND / 1000` computed in `loop`. -/
def cyclesPerMs : ℚ := CYCLES_PER_SECOND / 1000

/-- The mutable module-level state owned by the scheduler: the running flag
(`isRunning` ref), the last callback timestamp (`lastFrameMs`) and the three
fractional accumulators. -/
structure LoopState where
  isRunning : Bool
  lastFrameMs : ℚ
  cpuAccumulatorMs : ℚ
  timerAccumulatorMs : ℚ
  frameAccumulatorMs : ℚ
deriving DecidableEq, Repr

/-- The `Chip8Client` capability as consumed by the scheduler: an opaque
client state `σ` together with the operations the callback invokes.
`tick` advances CPU cycles, `tickTimers` advances 60 Hz timers,
`framebuffer` reads the 64×32 display, `soundTimer` and `programCounter`
are the cheap per-callback queries. -/
structure EmuOps (σ : Type) where
  tick : ℕ → σ → σ
  tickTimers : ℕ → σ → σ
  framebuffer : σ → List ℕ
  soundTimer : σ → ℕ
  programCounter : σ → ℕ

/-- A client-boundary call observed during one callback, in the order the
callback issued it. -/
inductive LoopEvent
  | tickTimersCall (ticks : ℕ)
  | tickCall (cycles : ℕ)
  | renderFrameCall
deriving DecidableEq, Repr

/-- The observable outcome of one invocation of `loop`: the scheduler state
after the callback, the client state after the callback, the values the
callback computed (`timerTicks` ticks passed to `tickTimers`, `cyclesWanted`
= the un-capped `cyclesToRun`, `cyclesRun` = the capped count passed to
`tick`), whether the render branch fired, the framebuffer snapshot the
render read (if any), and the ordered list of client calls made. -/
structure CallbackResult (σ : Type) where
  state : LoopState
  emu : σ
  timerTicks : ℕ
  cyclesWanted : ℤ
  cyclesRun : ℕ
  rendered : Bool
  renderedFb : Option (List ℕ)
  events : List LoopEvent

/-- Shallow embedding of the source function `loop(timestamp)`: the body of
the per-frame callback.  It returns early when not running; otherwise it
computes the wall-clock delta (no clamping appears in the source), adds it
to all three accumulators, drains whole timer ticks, runs capped CPU
cycles, and subtracts one frame interval when the render branch fires.
The UI-ref reads (`programCounter`, `soundTimer`) mutate no modelled state
and are omitted; the trailing `requestAnimationFrame` re-schedule is host
glue outside this state. -/
def loop {σ : Type} (E : EmuOps σ) (timestamp : ℚ) (s : LoopState) (emu : σ) :
    CallbackResult σ :=
  if s.isRunning = false then
    { state := s, emu := emu, timerTicks := 0, cyclesWanted := 0, cyclesRun := 0,
      rendered := false, renderedFb := none, events := [] }
  else
    let deltaMs : ℚ := timestamp - s.lastFrameMs
    let cpuAccumulatorMs : ℚ := s.cpuAccumulatorMs + deltaMs
    let timerAccumulatorMs : ℚ := s.timerAccumulatorMs + deltaMs
    let frameAccumulatorMs : ℚ := s.frameAccumulatorMs + deltaMs
    let cyclesToRun : ℤ := ⌊cpuAccumulatorMs * cyclesPerMs⌋
    let timerTicks : ℤ := ⌊timerAccumulatorMs / TIMER_INTERVAL_MS⌋
    let emu1 : σ := if 0 < timerTicks then E.tickTimers timerTicks.toNat emu else emu
    let timerAccumulatorMs1 : ℚ :=
      if 0 < timerTicks then timerAccumulatorMs - (timerTicks : ℚ) * TIMER_INTERVAL_MS
      else timerAccumulatorMs
    let cappedCycles : ℤ := min cyclesToRun MAX_CYCLES_PER_FRAME
    let emu2 : σ := if 0 < cyclesToRun then E.tick cappedCycles.toNat emu1 else emu1
    let cpuAccumulatorMs1 : ℚ :=
      if 0 < cyclesToRun then cpuAccumulatorMs - (cappedCycles : ℚ) / cyclesPerMs
      else cpuAccumulatorMs
    let doRender : Bool := FRAME_INTERVAL_MS ≤ frameAccumulatorMs
    let frameAccumulatorMs1 : ℚ :=
      if doRender then frameAccumulatorMs - FRAME_INTERVAL_MS else frameAccumulatorMs
    { state :=
        { isRunning := s.isRunning, lastFrameMs := timestamp,
          cpuAccumulatorMs := cpuAccumulatorMs1,
          timerAccumulatorMs := timerAccumulatorMs1,
          frameAccumulatorMs := frameAccumulatorMs1 },
      emu := emu2,
      timerTicks := if 0 < timerTicks then timerTicks.toNat else 0,
      cyclesWanted := cyclesToRun,
      cyclesRun := if 0 < cyclesToRun then cappedCycles.toNat else 0,
      rendered := doRender,
      renderedFb := if doRender then some (E.framebuffer emu2) else none,
      events :=
        (if 0 < timerTicks then [LoopEvent.tickTimersCall timerTicks.toNat] else []) ++
        (if 0 < cyclesToRun then [LoopEvent.tickCall cappedCycles.toNat] else []) ++
        (if doRender then [LoopEvent.renderFrameCall] else []) }

/-- Shallow embedding of the source function `startLoop()`: a no-op when
already running or when no ROM is loaded; otherwise sets the running flag,
records `performance.now()` as the last timestamp and zeros only the frame
accumulator.  The audio-context and sound-state side effects touch no
modelled state. -/
def startLoop (now : ℚ) (hasRom : Bool) (s : LoopState) : LoopState :=
  if s.isRunning || !hasRom then s
  else { s with isRunning := true, lastFrameMs := now, frameAccumulatorMs := 0 }

/-- Shallow embedding of the source function `stopLoop()`: a no-op when not
running; otherwise clears only the running flag (the
`cancelAnimationFrame` and sound-state side effects touch no modelled
state). -/
def stopLoop (s : LoopState) : LoopState :=
  if !s.isRunning then s
  else { s with isRunning := false }

/-- The scheduler state right after `resetEmulator()` followed by
`startLoop()` at time `t0`: running, all three accumulators zero. -/
def freshState (t0 : ℚ) : LoopState :=
  { isRunning := true, lastFrameMs := t0, cpuAccumulatorMs := 0,
    timerAccumulatorMs := 0, frameAccumulatorMs := 0 }

/-- A counting client used to observe the work the scheduler requests: the
state is the pair (total cycles passed to `tick`, total ticks passed to
`tickTimers`). -/
def countOps : EmuOps (ℕ × ℕ) :=
  { tick := fun n p => (p.1 + n, p.2),
    tickTimers := fun n p => (p.1, p.2 + n),
    framebuffer := fun _ => [],
    soundTimer := fun _ => 0,
    programCounter := fun _ => 0x200 }

/-- The run totals of a whole sequence of callbacks: final scheduler state,
final client state, the total cycles and ticks handed to the client, and
whether any callback hit the CPU cap. -/
structure RunTotals (σ : Type) where
  state : LoopState
  emu : σ
  totalCycles : ℕ
  totalTicks : ℕ
  anyCapped : Bool

/-- Drive `loop` over a list of wall-clock deltas: each callback is
delivered at the previous timestamp plus its delta (so `deltaMs` inside
`loop` is exactly the listed delta), accumulating totals. -/
def runDeltas {σ : Type} (E : EmuOps σ) : List ℚ → LoopState → σ → RunTotals σ
  | [], s, emu => ⟨s, emu, 0, 0, false⟩
  | d :: ds, s, emu =>
    let r := loop E (s.lastFrameMs + d) s emu
    let rest := runDeltas E ds r.state r.emu
    ⟨rest.state, rest.emu, r.cyclesRun + rest.totalCycles, r.timerTicks + rest.totalTicks,
      (decide (MAX_CYCLES_PER_FRAME < r.cyclesWanted) || rest.anyCapped)⟩

/-- The wall-clock delta `deltaMs` computed by `loop` at timestamp `t`. -/
def deltaOf (s : LoopState) (t : ℚ) : ℚ := t - s.lastFrameMs

/-- The CPU accumulator right after `cpuAccumulatorMs += deltaMs`. -/
def cpuPre (s : LoopState) (t : ℚ) : ℚ := s.cpuAccumulatorMs + deltaOf s t

/-- The timer accumulator right after `timerAccumulatorMs += deltaMs`. -/
def timerPre (s : LoopState) (t : ℚ) : ℚ := s.timerAccumulatorMs + deltaOf s t

/-- The frame accumulator right after `frameAccumulatorMs += deltaMs`. -/
def framePre (s : LoopState) (t : ℚ) : ℚ := s.frameAccumulatorMs + deltaOf s t

/-- The `cyclesToRun` value the callback computes. -/
def wantedOf (s : LoopState) (t : ℚ) : ℤ := ⌊cpuPre s t * cyclesPerMs⌋

/-- The `timerTicks` value the callback computes. -/
def ticksOf (s : LoopState) (t : ℚ) : ℤ := ⌊timerPre s t / TIMER_INTERVAL_MS⌋

/-- The `cappedCycles` value the callback computes. -/
def runOf (s : LoopState) (t : ℚ) : ℤ := min (wantedOf s t) MAX_CYCLES_PER_FRAME

/-- The `Chip8Client` capability with fallible `tick` / `tickTimers`, used to
study how `loop` behaves when the client raises a failure (`Except.error`)
during CPU or timer advancement. -/
structure EmuOpsE (σ ε : Type) where
  tick : ℕ → σ → Except ε σ
  tickTimers : ℕ → σ → Except ε σ

/-- The outcome of one callback of the fallible loop: scheduler state and
client state when the callback finished or aborted, the fault that escaped
(if any), and whether the trailing `requestAnimationFrame(loop)` line was
reached (it is skipped both by the early not-running return and by an
exception thrown from a client call). -/
structure LoopExcResult (σ ε : Type) where
  state : LoopState
  emu : σ
  fault : Option ε
  rafScheduled : Bool

/-- Shallow embedding of the source `loop` under a fallible client, with
JavaScript exception semantics made explicit: mutations performed before a
throwing call persist, the statements after it (including the accumulator
debit of the throwing phase and the `requestAnimationFrame` re-schedule)
are skipped, and the exception escapes verbatim.  Nothing in the source
catches it and nothing sets the running flag to false on this path. -/
def loopExc {σ ε : Type} (E : EmuOpsE σ ε) (timestamp : ℚ) (s : LoopState) (emu : σ) :
    LoopExcResult σ ε :=
  if s.isRunning = false then
    { state := s, emu := emu, fault := none, rafScheduled := false }
  else
    let deltaMs : ℚ := timestamp - s.lastFrameMs
    let s1 : LoopState :=
      { isRunning := s.isRunning, lastFrameMs := timestamp,
        cpuAccumulatorMs := s.cpuAccumulatorMs + deltaMs,
        timerAccumulatorMs := s.timerAccumulatorMs + deltaMs,
        frameAccumulatorMs := s.frameAccumulatorMs + deltaMs }
    let cyclesToRun : ℤ := ⌊s1.cpuAccumulatorMs * cyclesPerMs⌋
    let timerTicks : ℤ := ⌊s1.timerAccumulatorMs / TIMER_INTERVAL_MS⌋
    match (if 0 < timerTicks then E.tickTimers timerTicks.toNat emu else Except.ok emu) with
    | Except.error e => { state := s1, emu := emu, fault := some e, rafScheduled := false }
    | Except.ok emuT =>
      let s2 : LoopState :=
        if 0 < timerTicks then
          { s1 with timerAccumulatorMs :=
              s1.timerAccumulatorMs - (timerTicks : ℚ) * TIMER_INTERVAL_MS }
        else s1
      let cappedCycles : ℤ := min cyclesToRun MAX_CYCLES_PER_FRAME
      match (if 0 < cyclesToRun then E.tick cappedCycles.toNat emuT else Except.ok emuT) with
      | Except.error e => { state := s2, emu := emuT, fault := some e, rafScheduled := false }
      | Except.ok emuC =>
        let s3 : LoopState :=
          if 0 < cyclesToRun then
            { s2 with cpuAccumulatorMs :=
                s2.cpuAccumulatorMs - (cappedCycles : ℚ) / cyclesPerMs }
          else s2
        let s4 : LoopState :=
          if FRAME_INTERVAL_MS ≤ s3.frameAccumulatorMs then
            { s3 with frameAccumulatorMs := s3.frameAccumulatorMs - FRAME_INTERVAL_MS }
          else s3
        { state := s4, emu := emuC, fault := none, rafScheduled := true }

/-- A concrete fallible client whose `tick` always raises: used to exhibit
the behaviour of a callback in which CPU advancement faults. -/
def faultingOps : EmuOpsE Unit ℕ :=
  { tick := fun _ _ => Except.error 7,
    tickTimers := fun _ _ => Except.ok () }

/-- Source constant `keyMap`: the keyboard-to-CHIP-8 key index table, in
source order.  Keys are the (already lowercased) `event.key` strings. -/
def keyMap : List (String × ℕ) :=
  [("1", 0x1), ("2", 0x2), ("3", 0x3), ("4", 0xC),
   ("q", 0x4), ("w", 0x5), ("e", 0x6), ("r", 0xD),
   ("a", 0x7), ("s", 0x8), ("d", 0x9), ("f", 0xE),
   ("z", 0xA), ("x", 0x0), ("c", 0xB), ("v", 0xF)]

/-- JavaScript object lookup `keyMap[key]` (returning `undefined` as
`none`). -/
def keyMapLookup (key : String) : Option ℕ :=
  (keyMap.find? (fun p => p.1 == key)).map (fun p => p.2)

/-- Shallow embedding of the source function `updateKeyMask`: the 32-bit
pattern semantics of the JavaScript expressions `1 << keyIndex`,
`keyMask |= bit` and `keyMask &= ~bit` (shift count taken mod 32, bitwise
NOT as complement in 32 bits).  Returns the new mask together with the
argument passed to the unconditional `emulator.setKeys(keyMask)` call. -/
def updateKeyMask (mask : ℕ) (keyIndex : ℕ) (pressed : Bool) : ℕ × Option ℕ :=
  let bit : ℕ := 2 ^ (keyIndex % 32)
  let newMask : ℕ := if pressed then mask ||| bit else mask &&& (0xFFFFFFFF ^^^ bit)
  (newMask, some newMask)

/-- Shallow embedding of `handleKeyDown`: lowercase the key, look it up in
`keyMap`, return early (no mutation, no `setKeys` call) when unmapped,
otherwise press the mapped index. -/
def handleKeyDown (key : String) (mask : ℕ) : ℕ × Option ℕ :=
  match keyMapLookup key.toLower with
  | none => (mask, none)
  | some mappedKey => updateKeyMask mask mappedKey true

/-- Shallow embedding of `handleKeyUp`: lowercase the key, look it up in
`keyMap`, return early when unmapped, otherwise release the mapped
index. -/
def handleKeyUp (key : String) (mask : ℕ) : ℕ × Option ℕ :=
  match keyMapLookup key.toLower with
  | none => (mask, none)
  | some mappedKey => updateKeyMask mask mappedKey false

/-- A keyboard event as delivered to the window listeners. -/
inductive KeyEvent
  | down (key : String)
  | up (key : String)

/-- Dispatch one keyboard event to the corresponding handler. -/
def applyKeyEvent (mask : ℕ) : KeyEvent → ℕ × Option ℕ
  | KeyEvent.down key => handleKeyDown key mask
  | KeyEvent.up key => handleKeyUp key mask

/-- Run a sequence of keyboard events from a starting mask, collecting the
final mask and every mask value pushed to `emulator.setKeys`. -/
def runKeyEvents : List KeyEvent → ℕ → ℕ × List ℕ
  | [], mask => (mask, [])
  | e :: es, mask =>
    let r := applyKeyEvent mask e
    let rest := runKeyEvents es r.1
    (rest.1, r.2.toList ++ rest.2)

/-- The state of the source class `StubChip8Client`: the 64×32 framebuffer,
the animation frame counter, the stored key mask and the stub program
counter. -/
structure StubChip8Client where
  framebufferData : List ℕ
  frameCounter : ℕ
  keyMask : ℕ
  programCounterValue : ℕ
deriving DecidableEq, Repr

/-- The `StubChip8Client` constructor: empty framebuffer, zero counters,
program counter at 0x200. -/
def StubChip8Client.init : StubChip8Client :=
  { framebufferData := List.replicate (64 * 32) 0, frameCounter := 0,
    keyMask := 0, programCounterValue := 0x200 }

/-- Shallow embedding of `StubChip8Client.tick`: `safeCycles` clamps the
request to at least one cycle (`Math.max(1, Math.floor(cycles))`; the
argument is modelled as the non-negative integer the scheduler passes, so
`Math.floor` is the identity), advances the frame counter and the
program counter (masked to 12 bits), and redraws the moving pixel. -/
def StubChip8Client.tick (cycles : ℕ) (c : StubChip8Client) : StubChip8Client :=
  let safeCycles : ℕ := max 1 cycles
  let frameCounter : ℕ := c.frameCounter + safeCycles
  let programCounterValue : ℕ := (c.programCounterValue + safeCycles * 2) &&& 0x0fff
  let x : ℕ := frameCounter % 64
  let y : ℕ := (frameCounter / 64) % 32
  let fb0 : List ℕ := (List.replicate (64 * 32) 0).set (y * 64 + x) 1
  let fb1 : List ℕ := if c.keyMask ≠ 0 then fb0.set 0 1 else fb0
  { c with
    framebufferData := fb1
    frameCounter := frameCounter
    programCounterValue := programCounterValue }


lemma cyclesPerMs_pos : (0 : ℚ) < cyclesPerMs := by
  norm_num [cyclesPerMs, CYCLES_PER_SECOND]

lemma timer_interval_pos : (0 : ℚ) < TIMER_INTERVAL_MS := by
  norm_num [TIMER_INTERVAL_MS, TIMER_HZ]

lemma loop_eq_of_running {σ : Type} (E : EmuOps σ) (t : ℚ) (s : LoopState) (emu : σ)
    (hrun : s.isRunning = true) :
    loop E t s emu =
      { state :=
          { isRunning := true, lastFrameMs := t,
            cpuAccumulatorMs :=
              if 0 < wantedOf s t then cpuPre s t - (runOf s t : ℚ) / cyclesPerMs
              else cpuPre s t,
            timerAccumulatorMs :=
              if 0 < ticksOf s t then timerPre s t - (ticksOf s t : ℚ) * TIMER_INTERVAL_MS
              else timerPre s t,
            frameAccumulatorMs :=
              if FRAME_INTERVAL_MS ≤ framePre s t then framePre s t - FRAME_INTERVAL_MS
              else framePre s t },
        emu :=
          (if 0 < wantedOf s t then E.tick (runOf s t).toNat else id)
            ((if 0 < ticksOf s t then E.tickTimers (ticksOf s t).toNat else id) emu),
        timerTicks := if 0 < ticksOf s t then (ticksOf s t).toNat else 0,
        cyclesWanted := wantedOf s t,
        cyclesRun := if 0 < wantedOf s t then (runOf s t).toNat else 0,
        rendered := FRAME_INTERVAL_MS ≤ framePre s t,
        renderedFb :=
          if FRAME_INTERVAL_MS ≤ framePre s t then
            some (E.framebuffer
              ((if 0 < wantedOf s t then E.tick (runOf s t).toNat else id)
                ((if 0 < ticksOf s t then E.tickTimers (ticksOf s t).toNat else id) emu)))
          else none,
        events :=
          (if 0 < ticksOf s t then [LoopEvent.tickTimersCall (ticksOf s t).toNat] else []) ++
          (if 0 < wantedOf s t then [LoopEvent.tickCall (runOf s t).toNat] else []) ++
          (if FRAME_INTERVAL_MS ≤ framePre s t then [LoopEvent.renderFrameCall] else []) } := by
  simp only [loop, hrun, Bool.true_eq_false, if_false, wantedOf, ticksOf, runOf,
    cpuPre, timerPre, framePre, deltaOf]
  by_cases hw : 0 < ⌊(s.cpuAccumulatorMs + (t - s.lastFrameMs)) * cyclesPerMs⌋ <;>
    by_cases ht : 0 < ⌊(s.timerAccumulatorMs + (t - s.lastFrameMs)) / TIMER_INTERVAL_MS⌋ <;>
    simp [hw, ht]

lemma loop_isRunning {σ : Type} (E : EmuOps σ) (t : ℚ) (s : LoopState) (emu : σ) :
    (loop E t s emu).state.isRunning = s.isRunning := by
  rcases h : s.isRunning
  · simp [loop, h]
  · rw [loop_eq_of_running E t s emu h]

lemma loop_cyclesRun_le {σ : Type} (E : EmuOps σ) (t : ℚ) (s : LoopState) (emu : σ) :
    (loop E t s emu).cyclesRun ≤ 100 := by
  rcases h : s.isRunning
  · simp [loop, h]
  · rw [loop_eq_of_running E t s emu h]
    dsimp only
    split
    · exact Int.toNat_le.mpr (le_trans (min_le_right _ _) (by norm_num [MAX_CYCLES_PER_FRAME]))
    · exact Nat.zero_le _

lemma loop_cpu_eq {σ : Type} (E : EmuOps σ) (t : ℚ) (s : LoopState) (emu : σ)
    (hrun : s.isRunning = true) :
    (loop E t s emu).state.cpuAccumulatorMs
      = cpuPre s t - ((loop E t s emu).cyclesRun : ℚ) / cyclesPerMs := by
  rw [loop_eq_of_running E t s emu hrun]
  dsimp only
  split
  · rename_i hw
    have hr : (0 : ℤ) ≤ runOf s t :=
      le_min (le_of_lt hw) (by norm_num [MAX_CYCLES_PER_FRAME])
    have hc : (((runOf s t).toNat : ℚ)) = ((runOf s t : ℚ)) := by
      exact_mod_cast Int.toNat_of_nonneg hr
    rw [hc]
  · simp

lemma loop_timer_eq {σ : Type} (E : EmuOps σ) (t : ℚ) (s : LoopState) (emu : σ)
    (hrun : s.isRunning = true) :
    (loop E t s emu).state.timerAccumulatorMs
      = timerPre s t - ((loop E t s emu).timerTicks : ℚ) * TIMER_INTERVAL_MS := by
  rw [loop_eq_of_running E t s emu hrun]
  dsimp only
  split
  · rename_i ht
    have hc : (((ticksOf s t).toNat : ℚ)) = ((ticksOf s t : ℚ)) := by
      exact_mod_cast Int.toNat_of_nonneg (le_of_lt ht)
    rw [hc]
  · simp

lemma loop_cpu_nonneg {σ : Type} (E : EmuOps σ) (t : ℚ) (s : LoopState) (emu : σ)
    (hrun : s.isRunning = true) (h : 0 ≤ cpuPre s t) :
    0 ≤ (loop E t s emu).state.cpuAccumulatorMs := by
  rw [loop_eq_of_running E t s emu hrun]
  dsimp only
  split
  · rename_i hw
    have h1 : ((runOf s t : ℚ)) ≤ cpuPre s t * cyclesPerMs := by
      calc ((runOf s t : ℚ)) ≤ ((wantedOf s t : ℚ)) := by
            exact_mod_cast min_le_left _ _
        _ ≤ cpuPre s t * cyclesPerMs := Int.floor_le _
    have h2 : (runOf s t : ℚ) / cyclesPerMs ≤ cpuPre s t := by
      rw [div_le_iff₀ cyclesPerMs_pos]
      exact h1
    linarith
  · exact h

lemma loop_timer_range {σ : Type} (E : EmuOps σ) (t : ℚ) (s : LoopState) (emu : σ)
    (hrun : s.isRunning = true) (h : 0 ≤ timerPre s t) :
    0 ≤ (loop E t s emu).state.timerAccumulatorMs ∧
      (loop E t s emu).state.timerAccumulatorMs < TIMER_INTERVAL_MS := by
  have hfl : ((ticksOf s t : ℚ)) ≤ timerPre s t / TIMER_INTERVAL_MS := Int.floor_le _
  have hfu : timerPre s t / TIMER_INTERVAL_MS < (ticksOf s t : ℚ) + 1 :=
    Int.lt_floor_add_one _
  have h1 : (ticksOf s t : ℚ) * TIMER_INTERVAL_MS ≤ timerPre s t := by
    rw [← le_div_iff₀ timer_interval_pos]
    exact hfl
  have h2 : timerPre s t < ((ticksOf s t : ℚ) + 1) * TIMER_INTERVAL_MS := by
    rw [← div_lt_iff₀ timer_interval_pos]
    exact hfu
  rw [add_mul, one_mul] at h2
  rw [loop_eq_of_running E t s emu hrun]
  dsimp only
  split
  · exact ⟨by linarith, by linarith⟩
  · rename_i ht
    have h0 : (0 : ℤ) ≤ ticksOf s t :=
      Int.floor_nonneg.mpr (div_nonneg h (le_of_lt timer_interval_pos))
    have hz : ticksOf s t = 0 := le_antisymm (not_lt.mp ht) h0
    rw [hz] at h2
    push_cast at h2
    exact ⟨h, by linarith⟩

lemma loop_frame_nonneg {σ : Type} (E : EmuOps σ) (t : ℚ) (s : LoopState) (emu : σ)
    (hrun : s.isRunning = true) (h : 0 ≤ framePre s t) :
    0 ≤ (loop E t s emu).state.frameAccumulatorMs := by
  rw [loop_eq_of_running E t s emu hrun]
  dsimp only
  split
  · rename_i hf
    linarith
  · exact h

lemma loop_cpu_fract {σ : Type} (E : EmuOps σ) (t : ℚ) (s : LoopState) (emu : σ)
    (hrun : s.isRunning = true) (h : 0 ≤ cpuPre s t)
    (hnc : wantedOf s t ≤ MAX_CYCLES_PER_FRAME) :
    (loop E t s emu).state.cpuAccumulatorMs * cyclesPerMs < 1 := by
  have hfl : ((wantedOf s t : ℚ)) ≤ cpuPre s t * cyclesPerMs := Int.floor_le _
  have hfu : cpuPre s t * cyclesPerMs < (wantedOf s t : ℚ) + 1 :=
    Int.lt_floor_add_one _
  rw [loop_eq_of_running E t s emu hrun]
  dsimp only
  split
  · rename_i hw
    have hmin : runOf s t = wantedOf s t := min_eq_left hnc
    rw [hmin, sub_mul, div_mul_cancel₀ _ (ne_of_gt cyclesPerMs_pos)]
    linarith
  · rename_i hw
    have h0 : (0 : ℤ) ≤ wantedOf s t :=
      Int.floor_nonneg.mpr (mul_nonneg h (le_of_lt cyclesPerMs_pos))
    have hz : wantedOf s t = 0 := le_antisymm (not_lt.mp hw) h0
    rw [hz] at hfu
    push_cast at hfu
    linarith

lemma loop_cyclesWanted_eq {σ : Type} (E : EmuOps σ) (t : ℚ) (s : LoopState) (emu : σ)
    (hrun : s.isRunning = true) :
    (loop E t s emu).cyclesWanted = wantedOf s t := by
  rw [loop_eq_of_running E t s emu hrun]

lemma runDeltas_invariant {σ : Type} (E : EmuOps σ) (ds : List ℚ) :
    ∀ (s : LoopState) (emu : σ), s.isRunning = true → 0 ≤ s.cpuAccumulatorMs →
    0 ≤ s.timerAccumulatorMs → s.timerAccumulatorMs < TIMER_INTERVAL_MS →
    (∀ d ∈ ds, 0 ≤ d) →
    (runDeltas E ds s emu).state.isRunning = true ∧
    0 ≤ (runDeltas E ds s emu).state.cpuAccumulatorMs ∧
    0 ≤ (runDeltas E ds s emu).state.timerAccumulatorMs ∧
    (runDeltas E ds s emu).state.timerAccumulatorMs < TIMER_INTERVAL_MS ∧
    ((runDeltas E ds s emu).totalCycles : ℚ) / cyclesPerMs
      = s.cpuAccumulatorMs + ds.sum - (runDeltas E ds s emu).state.cpuAccumulatorMs ∧
    ((runDeltas E ds s emu).totalTicks : ℚ) * TIMER_INTERVAL_MS
      = s.timerAccumulatorMs + ds.sum - (runDeltas E ds s emu).state.timerAccumulatorMs ∧
    ((runDeltas E ds s emu).anyCapped = false → s.cpuAccumulatorMs * cyclesPerMs < 1 →
      (runDeltas E ds s emu).state.cpuAccumulatorMs * cyclesPerMs < 1) := by
  induction ds with
  | nil =>
    intro s emu hrun hc ht htI _
    refine ⟨hrun, hc, ht, htI, by simp [runDeltas], by simp [runDeltas], fun _ h => h⟩
  | cons d ds ih =>
    intro s emu hrun hc ht htI hd
    have hd0 : 0 ≤ d := hd d (by simp)
    have hds : ∀ x ∈ ds, 0 ≤ x := fun x hx => hd x (by simp [hx])
    have hcpuPre : 0 ≤ cpuPre s (s.lastFrameMs + d) := by
      simp only [cpuPre, deltaOf]
      linarith
    have htimerPre : 0 ≤ timerPre s (s.lastFrameMs + d) := by
      simp only [timerPre, deltaOf]
      linarith
    have hrun1 : (loop E (s.lastFrameMs + d) s emu).state.isRunning = true := by
      rw [loop_isRunning]
      exact hrun
    have hc1 : 0 ≤ (loop E (s.lastFrameMs + d) s emu).state.cpuAccumulatorMs :=
      loop_cpu_nonneg E _ s emu hrun hcpuPre
    have ht1 := loop_timer_range E (s.lastFrameMs + d) s emu hrun htimerPre
    have hcpuEq := loop_cpu_eq E (s.lastFrameMs + d) s emu hrun
    have htimerEq := loop_timer_eq E (s.lastFrameMs + d) s emu hrun
    obtain ⟨hrunR, hcR, htR, htIR, hcycR, htickR, hfracR⟩ :=
      ih (loop E (s.lastFrameMs + d) s emu).state (loop E (s.lastFrameMs + d) s emu).emu
        hrun1 hc1 ht1.1 ht1.2 hds
    simp only [runDeltas]
    refine ⟨hrunR, hcR, htR, htIR, ?_, ?_, ?_⟩
    · push_cast
      rw [add_div, hcycR]
      rw [hcpuEq] at *
      simp only [cpuPre, deltaOf, List.sum_cons]
      ring
    · push_cast
      rw [add_mul, htickR]
      rw [htimerEq] at *
      simp only [timerPre, deltaOf, List.sum_cons]
      ring
    · intro hcap hfrac0
      rw [Bool.or_eq_false_iff] at hcap
      have hnc : wantedOf s (s.lastFrameMs + d) ≤ MAX_CYCLES_PER_FRAME := by
        have := hcap.1
        simp only [decide_eq_false_iff_not, not_lt] at this
        rw [loop_cyclesWanted_eq E _ s emu hrun] at this
        exact this
      exact hfracR hcap.2 (loop_cpu_fract E _ s emu hrun hcpuPre hnc)

lemma loop_countOps_emu (t : ℚ) (s : LoopState) (a b : ℕ) :
    (loop countOps t s (a, b)).emu
      = (a + (loop countOps t s (a, b)).cyclesRun,
         b + (loop countOps t s (a, b)).timerTicks) := by
  rcases h : s.isRunning
  · simp [loop, h]
  · rw [loop_eq_of_running countOps t s (a, b) h]
    dsimp only
    by_cases hw : 0 < wantedOf s t <;> by_cases ht : 0 < ticksOf s t <;>
      simp [hw, ht, countOps]

lemma runDeltas_countOps_emu (ds : List ℚ) :
    ∀ (s : LoopState) (a b : ℕ),
    (runDeltas countOps ds s (a, b)).emu
      = (a + (runDeltas countOps ds s (a, b)).totalCycles,
         b + (runDeltas countOps ds s (a, b)).totalTicks) := by
  induction ds with
  | nil => intro s a b; simp [runDeltas]
  | cons d ds ih =>
    intro s a b
    simp only [runDeltas]
    rw [loop_countOps_emu]
    rw [ih]
    simp only [Prod.mk.injEq]
    omega

/-- Claim C4: over any sequence of callbacks with non-negative wall-clock deltas
summing to `T`, starting from the post-reset post-start state, the total
number of timer ticks passed to the client's `tickTimers` is exactly
`⌊T / (1000 / 60)⌋`, for every client (hence independent of CPU capping);
with the counting client this is literally the tick count the client
received. -/
theorem timer_ticks_exact {σ : Type} (E : EmuOps σ) (emu : σ) (t0 : ℚ) (ds : List ℚ)
    (hd : ∀ d ∈ ds, 0 ≤ d) :
    ((runDeltas E ds (freshState t0) emu).totalTicks : ℤ)
        = ⌊ds.sum / (1000 / TIMER_HZ)⌋ ∧
    (runDeltas countOps ds (freshState t0) ((0 : ℕ), (0 : ℕ))).emu.2
        = (runDeltas countOps ds (freshState t0) ((0 : ℕ), (0 : ℕ))).totalTicks := by
  constructor
  · obtain ⟨-, -, htR, htIR, -, htickR, -⟩ :=
      runDeltas_invariant E ds (freshState t0) emu rfl (le_refl 0) (le_refl 0)
        timer_interval_pos hd
    rw [show ((1000 : ℚ) / TIMER_HZ) = TIMER_INTERVAL_MS from rfl]
    have hI := timer_interval_pos
    rw [show (freshState t0).timerAccumulatorMs = 0 from rfl, zero_add] at htickR
    symm
    rw [Int.floor_eq_iff]
    constructor
    · rw [le_div_iff₀ hI]
      push_cast
      linarith
    · rw [div_lt_iff₀ hI, add_mul, one_mul]
      push_cast
      linarith
  · rw [runDeltas_countOps_emu]
    simp

/-- Claim C3 (amended): over any sequence of callbacks with non-negative deltas
summing to `T`, from the post-reset post-start state, the total cycles
passed to the client's `tick` never exceed `⌊T * cyclesPerSecond / 1000⌋`;
when no callback hits the per-callback cap the total equals that floor
exactly; each callback debits the CPU accumulator by the cost
`cyclesRun / cyclesPerMs` of the cycles actually run, never by the
un-capped want; and with the counting client the total is literally the
cycle count the client received.  (Cycle counts are naturals, so no
negative or fractional count arises.) -/
theorem cpu_cycles_bounds {σ : Type} (E : EmuOps σ) (emu : σ) (t0 : ℚ) (ds : List ℚ)
    (hd : ∀ d ∈ ds, 0 ≤ d) :
    ((runDeltas E ds (freshState t0) emu).totalCycles : ℤ)
        ≤ ⌊ds.sum * (CYCLES_PER_SECOND / 1000)⌋ ∧
    ((runDeltas E ds (freshState t0) emu).anyCapped = false →
      ((runDeltas E ds (freshState t0) emu).totalCycles : ℤ)
          = ⌊ds.sum * (CYCLES_PER_SECOND / 1000)⌋) ∧
    (∀ (s : LoopState) (t : ℚ) (emu2 : σ), s.isRunning = true →
      (loop E t s emu2).state.cpuAccumulatorMs
        = s.cpuAccumulatorMs + (t - s.lastFrameMs)
          - ((loop E t s emu2).cyclesRun : ℚ) / cyclesPerMs) ∧
    (runDeltas countOps ds (freshState t0) ((0 : ℕ), (0 : ℕ))).emu.1
        = (runDeltas countOps ds (freshState t0) ((0 : ℕ), (0 : ℕ))).totalCycles := by
  obtain ⟨-, hcR, -, -, hcycR, -, hfracR⟩ :=
    runDeltas_invariant E ds (freshState t0) emu rfl (le_refl 0) (le_refl 0)
      timer_interval_pos hd
  rw [show (CYCLES_PER_SECOND / 1000 : ℚ) = cyclesPerMs from rfl]
  rw [show (freshState t0).cpuAccumulatorMs = 0 from rfl, zero_add] at hcycR
  have hc := cyclesPerMs_pos
  have htot : ((runDeltas E ds (freshState t0) emu).totalCycles : ℚ)
      = (ds.sum - (runDeltas E ds (freshState t0) emu).state.cpuAccumulatorMs)
        * cyclesPerMs := by
    rw [← hcycR, div_mul_cancel₀ _ (ne_of_gt hc)]
  refine ⟨?_, ?_, ?_, ?_⟩
  · rw [Int.le_floor]
    push_cast
    rw [htot]
    have : 0 ≤ (runDeltas E ds (freshState t0) emu).state.cpuAccumulatorMs * cyclesPerMs :=
      mul_nonneg hcR (le_of_lt hc)
    nlinarith
  · intro hcap
    have hfr : (runDeltas E ds (freshState t0) emu).state.cpuAccumulatorMs * cyclesPerMs
        < 1 := hfracR hcap (by norm_num [freshState])
    have hfr0 : 0 ≤ (runDeltas E ds (freshState t0) emu).state.cpuAccumulatorMs
        * cyclesPerMs := mul_nonneg hcR (le_of_lt hc)
    symm
    rw [Int.floor_eq_iff]
    constructor
    · push_cast
      rw [htot]
      nlinarith
    · push_cast
      rw [htot]
      nlinarith
  · intro s t emu2 hrun
    have := loop_cpu_eq E t s emu2 hrun
    simpa [cpuPre, deltaOf] using this
  · rw [runDeltas_countOps_emu]
    simp

theorem timer_ticks_exact_witness :
    (∀ d ∈ [(100 : ℚ)], 0 ≤ d) ∧
    ((runDeltas countOps [(100 : ℚ)] (freshState 0) ((0 : ℕ), (0 : ℕ))).totalTicks : ℤ)
        = ⌊List.sum [(100 : ℚ)] / (1000 / TIMER_HZ)⌋ :=
  ⟨fun d hd => by simp at hd; rw [hd]; norm_num,
   (timer_ticks_exact countOps ((0 : ℕ), (0 : ℕ)) 0 [100]
     (fun d hd => by simp at hd; rw [hd]; norm_num)).1⟩

theorem cpu_cycles_bounds_witness :
    (∀ d ∈ [(20 : ℚ)], 0 ≤ d) ∧
    ((runDeltas countOps [(20 : ℚ)] (freshState 0) ((0 : ℕ), (0 : ℕ))).totalCycles : ℤ)
        ≤ ⌊List.sum [(20 : ℚ)] * (CYCLES_PER_SECOND / 1000)⌋ :=
  ⟨fun d hd => by simp at hd; rw [hd]; norm_num,
   (cpu_cycles_bounds countOps ((0 : ℕ), (0 : ℕ)) 0 [20]
     (fun d hd => by simp at hd; rw [hd]; norm_num)).1⟩

/-- Claim C3 counterexample: a single callback whose delta is 1000 ms.  The un-capped
want is 1300 cycles but only `MAX_CYCLES_PER_FRAME = 100` run, so the total
falls short of `⌊T * cyclesPerSecond / 1000⌋ = 1300` by 1200, far more than
`maxCyclesPerCallback - 1 = 99`. -/
theorem cpu_cycles_cap_gap_counterexample :
    (runDeltas countOps [(1000 : ℚ)] (freshState 0) ((0 : ℕ), (0 : ℕ))).totalCycles = 100 ∧
    ⌊List.sum [(1000 : ℚ)] * (CYCLES_PER_SECOND / 1000)⌋ = 1300 ∧
    ¬ (⌊List.sum [(1000 : ℚ)] * (CYCLES_PER_SECOND / 1000)⌋
        - ((runDeltas countOps [(1000 : ℚ)] (freshState 0) ((0 : ℕ), (0 : ℕ))).totalCycles : ℤ)
        ≤ MAX_CYCLES_PER_FRAME - 1) := by
  refine ⟨?_, by norm_num [CYCLES_PER_SECOND], ?_⟩
  · norm_num [runDeltas, loop, freshState, countOps, cyclesPerMs, CYCLES_PER_SECOND,
      TIMER_INTERVAL_MS, TIMER_HZ, FRAME_INTERVAL_MS, TARGET_FPS, MAX_CYCLES_PER_FRAME]
    decide
  · norm_num [runDeltas, loop, freshState, countOps, cyclesPerMs, CYCLES_PER_SECOND,
      TIMER_INTERVAL_MS, TIMER_HZ, FRAME_INTERVAL_MS, TARGET_FPS, MAX_CYCLES_PER_FRAME]

/-- Claim C1 counterexample: with the session running and `lastFrameMs = 100`, the
host delivers timestamp 50, i.e. a wall-clock delta of −50 ms.  The callback
applies the raw delta: all three accumulators end at −50 < 0, so the delta
was neither treated as non-negative nor capped, and an accumulator does go
negative. -/
theorem delta_clamp_counterexample :
    (loop countOps 50 (freshState 100) ((0 : ℕ), (0 : ℕ))).state.cpuAccumulatorMs = -50 ∧
    (loop countOps 50 (freshState 100) ((0 : ℕ), (0 : ℕ))).state.timerAccumulatorMs = -50 ∧
    (loop countOps 50 (freshState 100) ((0 : ℕ), (0 : ℕ))).state.frameAccumulatorMs = -50 ∧
    ((-50 : ℚ) < 0) := by
  norm_num [loop, freshState, countOps, cyclesPerMs, CYCLES_PER_SECOND,
    TIMER_INTERVAL_MS, TIMER_HZ, FRAME_INTERVAL_MS, TARGET_FPS, MAX_CYCLES_PER_FRAME]

/-- Claim C1 (amended): the callback applies the raw wall-clock delta with no
clamping: whenever the delta drives a just-incremented accumulator negative,
that accumulator simply stays at its negative value through the callback
(its drain branch cannot fire on a negative value); the only per-callback
bound in the design is the CPU cap, `cyclesRun ≤ 100`. -/
theorem loop_no_clamp {σ : Type} (E : EmuOps σ) (t : ℚ) (s : LoopState) (emu : σ)
    (hrun : s.isRunning = true) :
    (loop E t s emu).cyclesRun ≤ 100 ∧
    (s.cpuAccumulatorMs + (t - s.lastFrameMs) < 0 →
      (loop E t s emu).state.cpuAccumulatorMs = s.cpuAccumulatorMs + (t - s.lastFrameMs)) ∧
    (s.timerAccumulatorMs + (t - s.lastFrameMs) < 0 →
      (loop E t s emu).state.timerAccumulatorMs = s.timerAccumulatorMs + (t - s.lastFrameMs)) ∧
    (s.frameAccumulatorMs + (t - s.lastFrameMs) < 0 →
      (loop E t s emu).state.frameAccumulatorMs = s.frameAccumulatorMs + (t - s.lastFrameMs)) := by
  refine ⟨loop_cyclesRun_le E t s emu, ?_, ?_, ?_⟩
  · intro h
    have hpre : cpuPre s t < 0 := by simp only [cpuPre, deltaOf]; linarith
    have hw : ¬ 0 < wantedOf s t := by
      rw [wantedOf]
      exact not_lt.mpr (Int.floor_nonpos
        (le_of_lt (mul_neg_of_neg_of_pos hpre cyclesPerMs_pos)))
    rw [loop_eq_of_running E t s emu hrun]
    simp only [hw, if_false, cpuPre, deltaOf]
  · intro h
    have hpre : timerPre s t < 0 := by simp only [timerPre, deltaOf]; linarith
    have ht : ¬ 0 < ticksOf s t := by
      rw [ticksOf]
      exact not_lt.mpr (Int.floor_nonpos
        (le_of_lt (div_neg_of_neg_of_pos hpre timer_interval_pos)))
    rw [loop_eq_of_running E t s emu hrun]
    simp only [ht, if_false, timerPre, deltaOf]
  · intro h
    have hpre : framePre s t < 0 := by simp only [framePre, deltaOf]; linarith
    have hf : ¬ FRAME_INTERVAL_MS ≤ framePre s t := by
      have : (0 : ℚ) < FRAME_INTERVAL_MS := by norm_num [FRAME_INTERVAL_MS, TARGET_FPS]
      linarith
    rw [loop_eq_of_running E t s emu hrun]
    dsimp only
    rw [if_neg hf]
    simp only [framePre, deltaOf]

theorem loop_no_clamp_witness :
    (freshState 100).isRunning = true ∧
    (loop countOps 50 (freshState 100) ((0 : ℕ), (0 : ℕ))).state.timerAccumulatorMs
      = (freshState 100).timerAccumulatorMs + (50 - (freshState 100).lastFrameMs) :=
  ⟨rfl, (loop_no_clamp countOps 50 (freshState 100) ((0 : ℕ), (0 : ℕ)) rfl).2.2.1
    (by norm_num [freshState])⟩

/-- Claim C2 counterexample: from the reachable just-started state, one callback
with delta 1000 ms leaves the CPU accumulator at 12000/13 ms — far above
the 10/13 ms cost of one CPU cycle — because the cap ran only 100 of the
1300 wanted cycles; the frame accumulator likewise ends at 2950/3 ms,
above one frame interval, because the render branch drains a single
interval per callback. -/
theorem accumulator_ranges_counterexample :
    (loop countOps 1000 (freshState 0) ((0 : ℕ), (0 : ℕ))).state.cpuAccumulatorMs
      = 12000 / 13 ∧
    ¬ ((loop countOps 1000 (freshState 0) ((0 : ℕ), (0 : ℕ))).state.cpuAccumulatorMs
      < 1 / cyclesPerMs) ∧
    (loop countOps 1000 (freshState 0) ((0 : ℕ), (0 : ℕ))).state.frameAccumulatorMs
      = 2950 / 3 ∧
    ¬ ((loop countOps 1000 (freshState 0) ((0 : ℕ), (0 : ℕ))).state.frameAccumulatorMs
      < FRAME_INTERVAL_MS) := by
  norm_num [loop, freshState, countOps, cyclesPerMs, CYCLES_PER_SECOND,
    TIMER_INTERVAL_MS, TIMER_HZ, FRAME_INTERVAL_MS, TARGET_FPS, MAX_CYCLES_PER_FRAME]

/-- Claim C2 (amended): after a callback with non-negative delta from a state with
non-negative accumulators, all three accumulators are non-negative, and the
timer accumulator is below one timer interval; the CPU accumulator is below
one cycle's cost only when the callback was not capped
(`cyclesToRun ≤ MAX_CYCLES_PER_FRAME`); no such bound holds for the frame
accumulator. -/
theorem accumulator_ranges_amended {σ : Type} (E : EmuOps σ) (t : ℚ) (s : LoopState)
    (emu : σ) (hrun : s.isRunning = true) (hdelta : 0 ≤ t - s.lastFrameMs)
    (hcpu : 0 ≤ s.cpuAccumulatorMs) (htimer : 0 ≤ s.timerAccumulatorMs)
    (hframe : 0 ≤ s.frameAccumulatorMs) :
    0 ≤ (loop E t s emu).state.cpuAccumulatorMs ∧
    0 ≤ (loop E t s emu).state.timerAccumulatorMs ∧
    (loop E t s emu).state.timerAccumulatorMs < TIMER_INTERVAL_MS ∧
    0 ≤ (loop E t s emu).state.frameAccumulatorMs ∧
    ((loop E t s emu).cyclesWanted ≤ MAX_CYCLES_PER_FRAME →
      (loop E t s emu).state.cpuAccumulatorMs * cyclesPerMs < 1) := by
  have hc : 0 ≤ cpuPre s t := by simp only [cpuPre, deltaOf]; linarith
  have ht : 0 ≤ timerPre s t := by simp only [timerPre, deltaOf]; linarith
  have hf : 0 ≤ framePre s t := by simp only [framePre, deltaOf]; linarith
  obtain ⟨h1, h2⟩ := loop_timer_range E t s emu hrun ht
  refine ⟨loop_cpu_nonneg E t s emu hrun hc, h1, h2,
    loop_frame_nonneg E t s emu hrun hf, ?_⟩
  intro hnc
  rw [loop_cyclesWanted_eq E t s emu hrun] at hnc
  exact loop_cpu_fract E t s emu hrun hc hnc

theorem accumulator_ranges_amended_witness :
    ((freshState 0).isRunning = true ∧ 0 ≤ (16 : ℚ) - (freshState 0).lastFrameMs) ∧
    0 ≤ (loop countOps 16 (freshState 0) ((0 : ℕ), (0 : ℕ))).state.cpuAccumulatorMs :=
  ⟨⟨rfl, by norm_num [freshState]⟩,
   (accumulator_ranges_amended countOps 16 (freshState 0) ((0 : ℕ), (0 : ℕ)) rfl
     (by norm_num [freshState]) (by norm_num [freshState]) (by norm_num [freshState])
     (by norm_num [freshState])).1⟩

lemma loop_lastFrameMs {σ : Type} (E : EmuOps σ) (t : ℚ) (s : LoopState) (emu : σ)
    (hrun : s.isRunning = true) :
    (loop E t s emu).state.lastFrameMs = t := by
  rw [loop_eq_of_running E t s emu hrun]

lemma loop_cyclesRun_eq {σ : Type} (E : EmuOps σ) (t : ℚ) (s : LoopState) (emu : σ)
    (hrun : s.isRunning = true) :
    (loop E t s emu).cyclesRun = if 0 < wantedOf s t then (runOf s t).toNat else 0 := by
  rw [loop_eq_of_running E t s emu hrun]

lemma loop_timerTicks_eq {σ : Type} (E : EmuOps σ) (t : ℚ) (s : LoopState) (emu : σ)
    (hrun : s.isRunning = true) :
    (loop E t s emu).timerTicks = if 0 < ticksOf s t then (ticksOf s t).toNat else 0 := by
  rw [loop_eq_of_running E t s emu hrun]

lemma loop_work_resume {σ : Type} (E : EmuOps σ) (emu2 : σ) (s : LoopState)
    (hrun : s.isRunning = true) (u d : ℚ) :
    (loop E (u + d) (startLoop u true (stopLoop s)) emu2).cyclesRun
      = (loop E (s.lastFrameMs + d) s emu2).cyclesRun ∧
    (loop E (u + d) (startLoop u true (stopLoop s)) emu2).timerTicks
      = (loop E (s.lastFrameMs + d) s emu2).timerTicks := by
  have hstop : stopLoop s = { s with isRunning := false } := by
    simp [stopLoop, hrun]
  have hstart : startLoop u true (stopLoop s)
      = { s with isRunning := true, lastFrameMs := u, frameAccumulatorMs := 0 } := by
    rw [hstop]
    simp [startLoop]
  have hrun2 : (startLoop u true (stopLoop s)).isRunning = true := by
    rw [hstart]
  have hwant : wantedOf (startLoop u true (stopLoop s)) (u + d) = wantedOf s (s.lastFrameMs + d) := by
    rw [hstart]
    simp only [wantedOf, cpuPre, deltaOf]
    ring_nf
  have hticks : ticksOf (startLoop u true (stopLoop s)) (u + d) = ticksOf s (s.lastFrameMs + d) := by
    rw [hstart]
    simp only [ticksOf, timerPre, deltaOf]
    ring_nf
  constructor
  · rw [loop_cyclesRun_eq E _ _ emu2 hrun2, loop_cyclesRun_eq E _ s emu2 hrun]
    rw [runOf, runOf, hwant]
  · rw [loop_timerTicks_eq E _ _ emu2 hrun2, loop_timerTicks_eq E _ s emu2 hrun]
    rw [hticks]

/-- Claim C7: the source operation startLoop zeros only the frame accumulator (CPU and timer
accumulators are untouched), `stopLoop` touches no accumulator, and a
`start; onCallback(t1); stop; start(u); onCallback(u + d)` run performs
the same CPU work and timer work in its second callback as the
uninterrupted `start; onCallback(t1); onCallback(t1 + d)` run with the
same elapsed delta `d`, because the accumulators survive the stop/start
pair. -/
theorem start_stop_resume {σ : Type} (E : EmuOps σ) (emu emu2 : σ) (s0 : LoopState)
    (h0 : s0.isRunning = false) (t0 t1 u d : ℚ) :
    (startLoop t0 true s0).cpuAccumulatorMs = s0.cpuAccumulatorMs ∧
    (startLoop t0 true s0).timerAccumulatorMs = s0.timerAccumulatorMs ∧
    (startLoop t0 true s0).frameAccumulatorMs = 0 ∧
    (∀ s : LoopState, (stopLoop s).cpuAccumulatorMs = s.cpuAccumulatorMs ∧
      (stopLoop s).timerAccumulatorMs = s.timerAccumulatorMs ∧
      (stopLoop s).frameAccumulatorMs = s.frameAccumulatorMs) ∧
    (loop E (u + d)
        (startLoop u true (stopLoop (loop E t1 (startLoop t0 true s0) emu).state))
        emu2).cyclesRun
      = (loop E (t1 + d) (loop E t1 (startLoop t0 true s0) emu).state emu2).cyclesRun ∧
    (loop E (u + d)
        (startLoop u true (stopLoop (loop E t1 (startLoop t0 true s0) emu).state))
        emu2).timerTicks
      = (loop E (t1 + d) (loop E t1 (startLoop t0 true s0) emu).state emu2).timerTicks := by
  have hrun1 : (startLoop t0 true s0).isRunning = true := by
    simp [startLoop, h0]
  have hrunr : (loop E t1 (startLoop t0 true s0) emu).state.isRunning = true := by
    rw [loop_isRunning]
    exact hrun1
  have hlast : (loop E t1 (startLoop t0 true s0) emu).state.lastFrameMs = t1 :=
    loop_lastFrameMs E t1 _ emu hrun1
  obtain ⟨hres1, hres2⟩ :=
    loop_work_resume E emu2 (loop E t1 (startLoop t0 true s0) emu).state hrunr u d
  rw [hlast] at hres1 hres2
  refine ⟨by simp [startLoop, h0], by simp [startLoop, h0], by simp [startLoop, h0],
    ?_, hres1, hres2⟩
  intro s
  rcases h : s.isRunning <;> simp [stopLoop, h]

theorem start_stop_resume_witness :
    (LoopState.mk false 0 3 4 5).isRunning = false ∧
    (startLoop 0 true (LoopState.mk false 0 3 4 5)).cpuAccumulatorMs
      = (LoopState.mk false 0 3 4 5).cpuAccumulatorMs :=
  ⟨rfl,
   (start_stop_resume countOps ((0 : ℕ), (0 : ℕ)) ((0 : ℕ), (0 : ℕ))
     (LoopState.mk false 0 3 4 5) rfl 0 16 40 16).1⟩

/-- Claim C5: within one callback the client calls happen in the order
`tickTimers`, then `tick`, then `renderFrame` (each present only when its
branch fires, so the emitted trace is a sublist of that three-element
order); the client state at the end of the callback is the CPU advance
applied after the timer advance; and when the render branch fires, the
framebuffer it reads is that of the post-CPU-advance client state. -/
theorem callback_phase_order {σ : Type} (E : EmuOps σ) (t : ℚ) (s : LoopState) (emu : σ) :
    (loop E t s emu).events.Sublist
      [LoopEvent.tickTimersCall (loop E t s emu).timerTicks,
       LoopEvent.tickCall (loop E t s emu).cyclesRun,
       LoopEvent.renderFrameCall] ∧
    (loop E t s emu).emu
      = (if 0 < (loop E t s emu).cyclesRun then E.tick (loop E t s emu).cyclesRun else id)
          ((if 0 < (loop E t s emu).timerTicks then E.tickTimers (loop E t s emu).timerTicks
            else id) emu) ∧
    ((loop E t s emu).rendered = true →
      (loop E t s emu).renderedFb = some (E.framebuffer ((loop E t s emu).emu))) := by
  rcases h : s.isRunning
  · simp [loop, h, List.nil_sublist]
  · rw [loop_eq_of_running E t s emu h]
    dsimp only
    by_cases hw : 0 < wantedOf s t <;> by_cases ht : 0 < ticksOf s t <;>
      by_cases hf : FRAME_INTERVAL_MS ≤ framePre s t
    all_goals
      refine ⟨?_, ?_, ?_⟩
    all_goals
      first
      | (intro hr; simp only [decide_eq_true_eq] at hr; exact absurd hr hf)
      | (intro hr; simp [hw, ht, hf])
      | (have hrp : 0 < runOf s t := lt_min hw (by norm_num [MAX_CYCLES_PER_FRAME])
         have hrn : 0 < (runOf s t).toNat := by omega
         have htn : 0 < (ticksOf s t).toNat := by omega
         simp [hw, ht, hf, hrn, htn, List.cons_sublist_cons, List.nil_sublist])
      | (have hrp : 0 < runOf s t := lt_min hw (by norm_num [MAX_CYCLES_PER_FRAME])
         have hrn : 0 < (runOf s t).toNat := by omega
         simp [hw, ht, hf, hrn, List.cons_sublist_cons, List.nil_sublist])
      | (have htn : 0 < (ticksOf s t).toNat := by omega
         simp [hw, ht, hf, htn, List.cons_sublist_cons, List.nil_sublist])
      | simp [hw, ht, hf, List.cons_sublist_cons, List.nil_sublist]

/-- Claim C6 counterexample: a callback in which the client's CPU advance raises.
The fault escapes verbatim (`some 7`) and the trailing re-schedule is
skipped, but the running flag is still `true` after the callback —
`stopLoop` is never called on this path, contradicting the claim that the
scheduler sets `running = false`. -/
theorem fault_running_counterexample :
    (loopExc faultingOps 100 (freshState 0) ()).fault = some 7 ∧
    (loopExc faultingOps 100 (freshState 0) ()).state.isRunning = true ∧
    (loopExc faultingOps 100 (freshState 0) ()).rafScheduled = false := by
  norm_num [loopExc, faultingOps, freshState, cyclesPerMs, CYCLES_PER_SECOND,
    TIMER_INTERVAL_MS, TIMER_HZ, FRAME_INTERVAL_MS, TARGET_FPS, MAX_CYCLES_PER_FRAME]

/-- Claim C6 (amended): when a client call inside a running callback raises, the
callback surfaces exactly the client's error (the fault value originates
from a `tickTimers` or `tick` call), the trailing
`requestAnimationFrame(loop)` is never reached — so the host loop stops
spinning — but the running flag is left `true`: nothing on the fault path
calls `stopLoop` or clears `isRunning`. -/
theorem fault_propagation {σ ε : Type} (E : EmuOpsE σ ε) (t : ℚ) (s : LoopState)
    (emu : σ) (e : ε) (hrun : s.isRunning = true)
    (hfault : (loopExc E t s emu).fault = some e) :
    (loopExc E t s emu).rafScheduled = false ∧
    (loopExc E t s emu).state.isRunning = true ∧
    (∃ (n : ℕ) (emu0 : σ),
      E.tickTimers n emu0 = Except.error e ∨ E.tick n emu0 = Except.error e) := by
  simp only [loopExc, hrun, Bool.true_eq_false, if_false, reduceIte] at hfault ⊢
  by_cases ht : (0 : ℤ) < ⌊(s.timerAccumulatorMs + (t - s.lastFrameMs)) / TIMER_INTERVAL_MS⌋ <;>
    simp only [ht, if_true, if_false, reduceIte] at hfault ⊢
  · rcases hT : E.tickTimers
        ⌊(s.timerAccumulatorMs + (t - s.lastFrameMs)) / TIMER_INTERVAL_MS⌋.toNat emu
      with eT | emuT <;> rw [hT] at hfault <;> dsimp only at hfault ⊢
    · obtain rfl : eT = e := by exact Option.some_injective _ hfault
      exact ⟨rfl, rfl, ⟨_, emu, Or.inl hT⟩⟩
    · by_cases hw : (0 : ℤ) < ⌊(s.cpuAccumulatorMs + (t - s.lastFrameMs)) * cyclesPerMs⌋ <;>
        simp only [hw, if_true, if_false, reduceIte] at hfault ⊢
      · rcases hW : E.tick
            (min ⌊(s.cpuAccumulatorMs + (t - s.lastFrameMs)) * cyclesPerMs⌋
              MAX_CYCLES_PER_FRAME).toNat emuT
          with eW | emuC <;> rw [hW] at hfault <;> dsimp only at hfault ⊢
        · obtain rfl : eW = e := by exact Option.some_injective _ hfault
          exact ⟨rfl, rfl, ⟨_, emuT, Or.inr hW⟩⟩
        · exact absurd hfault (by simp)
      · exact absurd hfault (by simp)
  · by_cases hw : (0 : ℤ) < ⌊(s.cpuAccumulatorMs + (t - s.lastFrameMs)) * cyclesPerMs⌋ <;>
      simp only [hw, if_true, if_false, reduceIte] at hfault ⊢
    · rcases hW : E.tick
          (min ⌊(s.cpuAccumulatorMs + (t - s.lastFrameMs)) * cyclesPerMs⌋
            MAX_CYCLES_PER_FRAME).toNat emu
        with eW | emuC <;> rw [hW] at hfault <;> dsimp only at hfault ⊢
      · obtain rfl : eW = e := by exact Option.some_injective _ hfault
        exact ⟨rfl, rfl, ⟨_, emu, Or.inr hW⟩⟩
      · exact absurd hfault (by simp)
    · exact absurd hfault (by simp)

theorem fault_propagation_witness :
    ((freshState 0).isRunning = true ∧
      (loopExc faultingOps 100 (freshState 0) ()).fault = some 7) ∧
    (loopExc faultingOps 100 (freshState 0) ()).rafScheduled = false :=
  ⟨⟨rfl,
    by norm_num [loopExc, faultingOps, freshState, cyclesPerMs, CYCLES_PER_SECOND,
      TIMER_INTERVAL_MS, TIMER_HZ, FRAME_INTERVAL_MS, TARGET_FPS, MAX_CYCLES_PER_FRAME]⟩,
   (fault_propagation faultingOps 100 (freshState 0) () 7 rfl
     (by norm_num [loopExc, faultingOps, freshState, cyclesPerMs, CYCLES_PER_SECOND,
       TIMER_INTERVAL_MS, TIMER_HZ, FRAME_INTERVAL_MS, TARGET_FPS, MAX_CYCLES_PER_FRAME])).1⟩

/-- Claim C8 counterexample: `updateKeyMask` itself has no range check.  A press
with key index 16 mutates the mask from 0 to 65536, sets a bit outside the
low 16 positions, and pushes the changed mask to `setKeys` — nothing is
rejected at this level. -/
theorem out_of_range_key_counterexample :
    (updateKeyMask 0 16 true).1 = 65536 ∧
    (updateKeyMask 0 16 true).2 = some 65536 ∧
    ¬ ((updateKeyMask 0 16 true).1 < 2 ^ 16) := by
  refine ⟨rfl, rfl, ?_⟩
  decide

lemma keyMap_indices_lt : ∀ p ∈ keyMap, p.2 < 16 := by decide

lemma keyMapLookup_lt {key : String} {k : ℕ} (h : keyMapLookup key = some k) :
    k < 16 := by
  rcases hf : keyMap.find? (fun p => p.1 == key) with _ | p
  · rw [keyMapLookup, hf] at h
    exact absurd h (by simp)
  · rw [keyMapLookup, hf] at h
    have h2 : p.2 = k := by simpa using h
    have hp := List.mem_of_find?_eq_some hf
    have := keyMap_indices_lt p hp
    omega

lemma updateKeyMask_lt (mask k : ℕ) (pressed : Bool)
    (hmask : mask < 2 ^ 16) (hk : k < 16) :
    (updateKeyMask mask k pressed).1 < 2 ^ 16 := by
  have hkk : k % 32 = k := Nat.mod_eq_of_lt (by omega)
  rcases pressed
  · simp only [updateKeyMask, Bool.false_eq_true, if_false]
    exact lt_of_le_of_lt Nat.and_le_left hmask
  · simp only [updateKeyMask, if_true]
    exact Nat.or_lt_two_pow hmask
      (by rw [hkk]; exact Nat.pow_lt_pow_right (by norm_num) hk)

lemma updateKeyMask_snd (mask k : ℕ) (pressed : Bool) :
    (updateKeyMask mask k pressed).2 = some ((updateKeyMask mask k pressed).1) := rfl

lemma applyKeyEvent_lt (mask : ℕ) (e : KeyEvent) (hmask : mask < 2 ^ 16) :
    (applyKeyEvent mask e).1 < 2 ^ 16 ∧
    ∀ p ∈ (applyKeyEvent mask e).2.toList, p < 2 ^ 16 := by
  rcases e with key | key <;> simp only [applyKeyEvent, handleKeyDown, handleKeyUp] <;>
    rcases hl : keyMapLookup key.toLower with _ | k <;> simp only
  · exact ⟨hmask, by simp⟩
  · have hb := updateKeyMask_lt mask k true hmask (keyMapLookup_lt hl)
    refine ⟨hb, ?_⟩
    intro p hp
    rw [updateKeyMask_snd] at hp
    simp only [Option.toList_some, List.mem_singleton] at hp
    rw [hp]
    exact hb
  · exact ⟨hmask, by simp⟩
  · have hb := updateKeyMask_lt mask k false hmask (keyMapLookup_lt hl)
    refine ⟨hb, ?_⟩
    intro p hp
    rw [updateKeyMask_snd] at hp
    simp only [Option.toList_some, List.mem_singleton] at hp
    rw [hp]
    exact hb

lemma runKeyEvents_lt (evs : List KeyEvent) :
    ∀ mask, mask < 2 ^ 16 →
      (runKeyEvents evs mask).1 < 2 ^ 16 ∧
      ∀ p ∈ (runKeyEvents evs mask).2, p < 2 ^ 16 := by
  induction evs with
  | nil => intro mask hm; exact ⟨hm, by simp [runKeyEvents]⟩
  | cons e es ih =>
    intro mask hm
    obtain ⟨h1, h2⟩ := applyKeyEvent_lt mask e hm
    obtain ⟨h3, h4⟩ := ih (applyKeyEvent mask e).1 h1
    simp only [runKeyEvents]
    refine ⟨h3, ?_⟩
    intro p hp
    rw [List.mem_append] at hp
    rcases hp with hp | hp
    · exact h2 p hp
    · exact h4 p hp

/-- Claim C8 (amended): out-of-range rejection happens only at the keyboard-handler
level — a key not in `keyMap` returns early with no mutation and no
`setKeys` call — while `updateKeyMask` itself performs no range check and
always pushes the new mask; for in-range indices a press sets exactly the
corresponding bit and a release clears exactly it, and in-range updates
keep the mask within 16 bits. -/
theorem key_input_handling (key : String) (mask k : ℕ)
    (hmask : mask < 2 ^ 32) (hk : k < 16) :
    (keyMapLookup key.toLower = none →
      handleKeyDown key mask = (mask, none) ∧ handleKeyUp key mask = (mask, none)) ∧
    (∀ j : ℕ, (updateKeyMask mask k true).1.testBit j
        = (mask.testBit j || decide (j = k))) ∧
    (∀ j : ℕ, (updateKeyMask mask k false).1.testBit j
        = (mask.testBit j && !decide (j = k))) ∧
    (updateKeyMask mask k true).2 = some ((updateKeyMask mask k true).1) ∧
    (updateKeyMask mask k false).2 = some ((updateKeyMask mask k false).1) ∧
    (mask < 2 ^ 16 → (updateKeyMask mask k true).1 < 2 ^ 16 ∧
      (updateKeyMask mask k false).1 < 2 ^ 16) := by
  have hkk : k % 32 = k := Nat.mod_eq_of_lt (by omega)
  refine ⟨?_, ?_, ?_, rfl, rfl, ?_⟩
  · intro hnone
    rw [handleKeyDown, handleKeyUp, hnone]
    exact ⟨rfl, rfl⟩
  · intro j
    simp only [updateKeyMask, if_true, hkk, Nat.testBit_or, Nat.testBit_two_pow]
    rw [show decide (k = j) = decide (j = k) from decide_eq_decide.mpr ⟨Eq.symm, Eq.symm⟩]
  · intro j
    simp only [updateKeyMask, Bool.false_eq_true, if_false, hkk, Nat.testBit_and,
      Nat.testBit_xor]
    rw [show (0xFFFFFFFF : ℕ) = 2 ^ 32 - 1 from by norm_num,
      Nat.testBit_two_pow_sub_one, Nat.testBit_two_pow]
    rw [show decide (k = j) = decide (j = k) from decide_eq_decide.mpr ⟨Eq.symm, Eq.symm⟩]
    by_cases hj32 : j < 32
    · simp [hj32, Bool.true_xor]
    · have hjk : ¬ j = k := by omega
      have hbit : mask.testBit j = false := by
        apply Nat.testBit_eq_false_of_lt
        exact lt_of_lt_of_le hmask (Nat.pow_le_pow_right (by norm_num) (by omega))
      simp [hj32, hjk, hbit]
  · intro hm16
    exact ⟨updateKeyMask_lt mask k true hm16 hk, updateKeyMask_lt mask k false hm16 hk⟩

theorem key_input_handling_witness :
    ((0 : ℕ) < 2 ^ 32 ∧ (5 : ℕ) < 16) ∧
    (updateKeyMask 0 5 true).2 = some ((updateKeyMask 0 5 true).1) :=
  ⟨⟨by norm_num, by norm_num⟩,
   (key_input_handling "+" 0 5 (by norm_num) (by norm_num)).2.2.2.1⟩

/-- Claim C10: the value column of `keyMap` is a permutation of the indices
0x0..0xF (each CHIP-8 key index appears exactly once) and its key column
has no duplicate keyboard key; consequently, over every sequence of
keydown/keyup events starting from the empty mask, the current mask and
every mask pushed to `setKeys` stay within 0..0xFFFF. -/
theorem keyMap_bijective_mask_range :
    (keyMap.map Prod.snd).Perm (List.range 16) ∧
    (keyMap.map Prod.fst).Nodup ∧
    (∀ evs : List KeyEvent, (runKeyEvents evs 0).1 ≤ 0xFFFF ∧
      ∀ p ∈ (runKeyEvents evs 0).2, p ≤ 0xFFFF) := by
  refine ⟨by decide, by decide, ?_⟩
  intro evs
  obtain ⟨h1, h2⟩ := runKeyEvents_lt evs 0 (by norm_num)
  refine ⟨by omega, ?_⟩
  intro p hp
  have := h2 p hp
  omega

/-- Claim C9 counterexample: `StubChip8Client.tick(0)` is not a no-op: the
`Math.max(1, …)` clamp turns the request into one cycle, so the frame
counter advances from 0 to 1 and the program counter from 0x200 to 0x202,
rather than `tick(0)` leaving the state unchanged. -/
theorem stub_tick_zero_counterexample :
    (StubChip8Client.tick 0 StubChip8Client.init).frameCounter = 1 ∧
    StubChip8Client.init.frameCounter = 0 ∧
    (StubChip8Client.tick 0 StubChip8Client.init).programCounterValue = 0x202 ∧
    StubChip8Client.init.programCounterValue = 0x200 := by
  refine ⟨by decide, rfl, by decide, rfl⟩

/-- Claim C9 (amended): for every requested cycle count of at least one,
`StubChip8Client.tick` advances the frame counter by exactly that count and
the program counter by exactly twice that count modulo 0x1000; a request
of zero is clamped to one cycle and therefore does mutate the state. -/
theorem stub_tick_exact (c : StubChip8Client) (cycles : ℕ) (h : 1 ≤ cycles) :
    (StubChip8Client.tick cycles c).frameCounter = c.frameCounter + cycles ∧
    (StubChip8Client.tick cycles c).programCounterValue
      = (c.programCounterValue + 2 * cycles) % 0x1000 := by
  have hmax : max 1 cycles = cycles := max_eq_right h
  refine ⟨?_, ?_⟩
  · show c.frameCounter + max 1 cycles = c.frameCounter + cycles
    rw [hmax]
  · show (c.programCounterValue + max 1 cycles * 2) &&& 0x0fff
        = (c.programCounterValue + 2 * cycles) % 0x1000
    rw [hmax]
    have hmod := Nat.and_pow_two_sub_one_eq_mod (c.programCounterValue + cycles * 2) 12
    norm_num at hmod
    rw [show (0x0fff : ℕ) = 4095 from by norm_num, hmod]
    omega

theorem stub_tick_exact_witness :
    (1 ≤ 3) ∧
    (StubChip8Client.tick 3 StubChip8Client.init).frameCounter
      = StubChip8Client.init.frameCounter + 3 :=
  ⟨by norm_num, (stub_tick_exact StubChip8Client.init 3 (by norm_num)).1⟩
